import Mathlib

/-!
Verification of the media-relay bot (`bot.py`) against its specification.

The development shallowly embeds the pure decision logic of the program:
the sqlite-backed delivery cache (`get_cache` / `set_cache`), the iterative
fit-encoder loop (`transcode_high_quality`), the direct-delivery planner
(`choose_direct_format` and its caller's fast path), the extraction-result
classifier (`has_video_in_formats` / `extract_image_urls`), the retry loops
of the background processor, the post-download send/cleanup phase, and the
URL admission logic of the inbound message handler (`download_media`).

External effectful collaborators (ffmpeg, yt-dlp, the Telegram transport,
HTTP HEAD probes) are abstracted as oracle parameters: a function from CRF
to produced size for ffmpeg, per-attempt outcomes for yt-dlp, booleans for
transport send success.  Python truthiness (`x or y`, `if x:`) is modelled
explicitly wherever the source relies on it.
-/

/- ===== Python truthiness helpers ===== -/

/-- Python `d or 0` for `d : Optional[int]` (as used in `set_cache`):
`None` becomes `0`; any integer is kept (`0 or 0` is `0`). -/
def pyOrZero : Option Int → Int
  | some n => n
  | none => 0

/-- Python truthiness of an optional string (`if s:`): present and non-empty. -/
def strTruthy : Option String → Bool
  | some s => s ≠ ""
  | none => false

/-- Python truthiness of an optional number (`if n:`): present and non-zero. -/
def natTruthy : Option Nat → Bool
  | some n => n ≠ 0
  | none => false

/- ===== SQLITE CACHE (bot.py lines 74-109) ===== -/

/-- One row of the `cache` table: `url` is the primary key; the row stores
`file_id`, `kind`, `size`, `duration` (the `updated_at` timestamp carries no
information relevant to the claims and is omitted). -/
structure CacheRow where
  file_id : String
  kind : String
  size : Int
  duration : Int
deriving DecidableEq, Repr

/-- The cache table: an association list keyed by URL.  The sqlite primary
key guarantees at most one row per URL, which the upsert below preserves. -/
def CacheDB := List (String × CacheRow)

/-- `get_cache(url)`: `SELECT file_id, kind, size, duration FROM cache WHERE
url = ?`, returning the row as a tuple or `None`. -/
def get_cache : CacheDB → String → Option (String × String × Int × Int)
  | [], _ => none
  | (u, r) :: rest, url =>
    if u = url then some (r.file_id, r.kind, r.size, r.duration)
    else get_cache rest url

/-- `set_cache(url, file_id, kind, size, duration)`: `INSERT ... ON
CONFLICT(url) DO UPDATE` replacing every field; the bound duration value is
`duration or 0`. -/
def set_cache : CacheDB → String → String → String → Int → Option Int → CacheDB
  | [], url, fid, k, s, d => [(url, ⟨fid, k, s, pyOrZero d⟩)]
  | (u, r) :: rest, url, fid, k, s, d =>
    if u = url then (url, ⟨fid, k, s, pyOrZero d⟩) :: rest
    else (u, r) :: set_cache rest url fid k s d

lemma get_set_cache_same (db : CacheDB) (url fid k : String) (s : Int)
    (d : Option Int) :
    get_cache (set_cache db url fid k s d) url = some (fid, k, s, pyOrZero d) := by
  induction db with
  | nil => simp [set_cache, get_cache]
  | cons p rest ih =>
    obtain ⟨u, r⟩ := p
    by_cases h : u = url
    · simp [set_cache, get_cache, h]
    · simp [set_cache, get_cache, h, ih]

/- ===== FIT-ENCODER (bot.py lines 183-235, transcode_high_quality) ===== -/

/-- The CRF-search loop of `transcode_high_quality`.  The external ffmpeg
invocation is abstracted by `sizeOf : Nat → Nat`, mapping the CRF value of an
iteration to the byte size of the file it produces (each iteration fully
re-encodes into the same output path, so the size depends only on the CRF).
The source loop is `while True: encode; if size <= max_bytes or crf >= 28:
return output_path; crf += 2`.  The structural `fuel` argument is only a
termination device: whenever `28 ≤ crf + 2 * fuel` the `fuel = 0` case is
reachable only with `28 ≤ crf`, where the source loop also stops immediately
and returns, so the embedding and the source agree on every reachable input.
The result is the final CRF together with the trace of CRF values tried. -/
def fitLoopF (sizeOf : Nat → Nat) (maxBytes : Nat) : Nat → Nat → Nat × List Nat
  | crf, 0 => (crf, [crf])
  | crf, fuel + 1 =>
    if sizeOf crf ≤ maxBytes ∨ 28 ≤ crf then (crf, [crf])
    else
      let r := fitLoopF sizeOf maxBytes (crf + 2) fuel
      (r.1, crf :: r.2)

/-- `transcode_high_quality`: the loop starts at `crf = 18`; fuel `10`
satisfies `28 ≤ 18 + 2 * 10`, so the embedding is exact. -/
def transcode_high_quality (sizeOf : Nat → Nat) (maxBytes : Nat) : Nat × List Nat :=
  fitLoopF sizeOf maxBytes 18 10

lemma fitLoopF_zero (sizeOf : Nat → Nat) (maxBytes crf : Nat) :
    fitLoopF sizeOf maxBytes crf 0 = (crf, [crf]) := rfl

lemma fitLoopF_succ_pos (sizeOf : Nat → Nat) (maxBytes crf fuel : Nat)
    (h : sizeOf crf ≤ maxBytes ∨ 28 ≤ crf) :
    fitLoopF sizeOf maxBytes crf (fuel + 1) = (crf, [crf]) := by
  simp [fitLoopF, h]

lemma fitLoopF_succ_neg (sizeOf : Nat → Nat) (maxBytes crf fuel : Nat)
    (h : ¬ (sizeOf crf ≤ maxBytes ∨ 28 ≤ crf)) :
    fitLoopF sizeOf maxBytes crf (fuel + 1) =
      ((fitLoopF sizeOf maxBytes (crf + 2) fuel).1,
        crf :: (fitLoopF sizeOf maxBytes (crf + 2) fuel).2) := by
  simp [fitLoopF, h]

lemma shiftMap (crf n : Nat) :
    List.map (fun j => crf + 2 * j) (List.range (n + 1)) =
      crf :: List.map (fun j => (crf + 2) + 2 * j) (List.range n) := by
  rw [List.range_succ_eq_map]
  simp only [List.map_cons, List.map_map]
  refine congrArg₂ _ (by omega) ?_
  apply List.map_congr_left
  intro a _
  simp only [Function.comp_apply]
  omega

lemma fitLoopF_spec (sizeOf : Nat → Nat) (maxBytes : Nat) :
    ∀ fuel crf, 28 ≤ crf + 2 * fuel →
    ∃ n, 1 ≤ n ∧
      (fitLoopF sizeOf maxBytes crf fuel).2 =
        (List.range n).map (fun j => crf + 2 * j) ∧
      (fitLoopF sizeOf maxBytes crf fuel).1 = crf + 2 * (n - 1) ∧
      (sizeOf (crf + 2 * (n - 1)) ≤ maxBytes ∨ 28 ≤ crf + 2 * (n - 1)) ∧
      (∀ j, j + 1 < n → ¬ sizeOf (crf + 2 * j) ≤ maxBytes ∧ crf + 2 * j < 28) := by
  intro fuel
  induction fuel with
  | zero =>
    intro crf hcrf
    refine ⟨1, le_refl 1, ?_, ?_, ?_, ?_⟩
    · simp [fitLoopF_zero, List.range_succ]
    · simp [fitLoopF_zero]
    · right; simpa using hcrf
    · intro j hj; omega
  | succ fuel ih =>
    intro crf hcrf
    by_cases hstop : sizeOf crf ≤ maxBytes ∨ 28 ≤ crf
    · refine ⟨1, le_refl 1, ?_, ?_, ?_, ?_⟩
      · simp [fitLoopF_succ_pos _ _ _ _ hstop, List.range_succ]
      · simp [fitLoopF_succ_pos _ _ _ _ hstop]
      · simpa using hstop
      · intro j hj; omega
    · have hspl := hstop
      push_neg at hspl
      obtain ⟨hsz, hlt⟩ := hspl
      obtain ⟨n, hn1, htr, hfin, hcond, hbefore⟩ := ih (crf + 2) (by omega)
      rw [fitLoopF_succ_neg _ _ _ _ hstop]
      refine ⟨n + 1, by omega, ?_, ?_, ?_, ?_⟩
      · dsimp only
        rw [shiftMap, htr]
      · dsimp only
        rw [hfin]; omega
      · have heq : crf + 2 + 2 * (n - 1) = crf + 2 * (n + 1 - 1) := by omega
        rw [← heq]; exact hcond
      · intro j hj
        match j with
        | 0 =>
          simp only [Nat.mul_zero, Nat.add_zero]
          exact ⟨by omega, by omega⟩
        | j' + 1 =>
          have h := hbefore j' (by omega)
          constructor
          · have heq : crf + 2 * (j' + 1) = crf + 2 + 2 * j' := by omega
            rw [heq]; exact h.1
          · omega

/-- C3: for every input file (abstracted by the CRF-to-size function of its
encodes) and every ceiling, `transcode_high_quality`'s loop terminates and
returns: the CRF trace starts at 18, advances by exactly +2 per iteration,
has at most 6 entries, every non-final iteration had a size over the ceiling
and a CRF below the floor 28 (so the loop stops as soon as the size fits or
the floor is reached), and the final CRF either produced a size at or under
the ceiling or equals the floor 28 — a floor-reached oversized result is
returned, not raised. -/
theorem transcode_fit_terminates (sizeOf : Nat → Nat) (maxBytes : Nat) :
    ∃ n, 1 ≤ n ∧ n ≤ 6 ∧
      (transcode_high_quality sizeOf maxBytes).2 =
        (List.range n).map (fun j => 18 + 2 * j) ∧
      (transcode_high_quality sizeOf maxBytes).1 = 18 + 2 * (n - 1) ∧
      (sizeOf ((transcode_high_quality sizeOf maxBytes).1) ≤ maxBytes ∨
        (transcode_high_quality sizeOf maxBytes).1 = 28) ∧
      (∀ j, j + 1 < n → ¬ sizeOf (18 + 2 * j) ≤ maxBytes ∧ 18 + 2 * j < 28) := by
  obtain ⟨n, hn1, htr, hfin, hcond, hbefore⟩ :=
    fitLoopF_spec sizeOf maxBytes 10 18 (by omega)
  have hn6 : n ≤ 6 := by
    by_contra h
    have h5 := (hbefore 5 (by omega)).2
    omega
  refine ⟨n, hn1, hn6, htr, hfin, ?_, hbefore⟩
  rcases hcond with h | h
  · left; show sizeOf (fitLoopF sizeOf maxBytes 18 10).1 ≤ maxBytes
    rw [hfin]; exact h
  · right; show (fitLoopF sizeOf maxBytes 18 10).1 = 28
    rw [hfin]; omega

/-- Concrete run of the fit loop: encodes at CRF 18 and 20 are over a 48-byte
ceiling, CRF 22 fits; the loop visits exactly 18, 20, 22 and returns 22. -/
def exampleSizeOf : Nat → Nat := fun c => if c ≤ 21 then 100 else 40

theorem transcode_fit_terminates_witness :
    (transcode_high_quality exampleSizeOf 48).2 = [18, 20, 22] ∧
      (transcode_high_quality exampleSizeOf 48).1 = 22 := by
  have h := transcode_fit_terminates exampleSizeOf 48
  exact ⟨by decide, by decide⟩

/- ===== C9: cache set/get round trip ===== -/

/-- Counterexample to C9 as stated: `set_cache` coerces an absent duration to
`0` (`duration or 0`), so a `set` with duration `None` followed by `get`
returns `0`, not the value that was passed — and the cache states produced by
duration `None` and by duration `0` are identical, so `get` cannot return
"exactly" the duration argument for every duration in the signature's domain
`Optional[int]`. -/
theorem cache_set_get_counterexample :
    get_cache (set_cache [] "u" "h1" "video" 5 none) "u" =
      some ("h1", "video", 5, 0) ∧
    set_cache [] "u" "h1" "video" 5 none =
      set_cache [] "u" "h1" "video" 5 (some 0) := by
  exact ⟨rfl, rfl⟩

/-- C9 (amended): for every actual (non-null) duration `d`, `set` then `get`
returns exactly `(h, k, s, d)` (a null duration is stored as `0`), and a
second `set` on the same URL with different values fully replaces the first
entry — no field retains its stale value. -/
theorem cache_set_get_exact (db : CacheDB) (url fid k : String) (s : Int)
    (d : Int) (fid₂ k₂ : String) (s₂ d₂ : Int) :
    get_cache (set_cache db url fid k s (some d)) url = some (fid, k, s, d) ∧
    get_cache (set_cache (set_cache db url fid k s (some d))
        url fid₂ k₂ s₂ (some d₂)) url = some (fid₂, k₂, s₂, d₂) := by
  exact ⟨get_set_cache_same db url fid k s (some d),
    get_set_cache_same _ url fid₂ k₂ s₂ (some d₂)⟩

/- ===== String containment (Python `in`, str.lower) ===== -/

/-- `needle` is a prefix of `hay` (character lists, exact match). -/
def isPrefixOfSub : List Char → List Char → Bool
  | [], _ => true
  | _ :: _, [] => false
  | a :: as, b :: bs => a == b && isPrefixOfSub as bs

/-- Python `needle in hay` on strings: `needle` occurs as a contiguous
substring of `hay` (the empty needle always occurs). -/
def subSearch (needle : List Char) : List Char → Bool
  | [] => isPrefixOfSub needle []
  | c :: rest => isPrefixOfSub needle (c :: rest) || subSearch needle rest

/-- Python `needle in hay` lifted to `String`. -/
def strContainsSub (needle hay : String) : Bool :=
  subSearch needle.data hay.data

/-- Python `str.lower()` as a character-list map (ASCII case folding, which
coincides with Python's on every string the program compares). -/
def lowerData (s : String) : List Char :=
  s.data.map Char.toLower

/-- Python `needle in hay.lower()`. -/
def strContainsLower (needle hay : String) : Bool :=
  subSearch needle.data (lowerData hay)

/- ===== RETRY LOOPS (bot.py lines 355-398 probe, 479-524 download) ===== -/

/-- Outcome of one yt-dlp invocation (attempt index → result): success, a
`yt_dlp.utils.DownloadError` carrying its message, or any other exception. -/
inductive StepRes where
  | ok
  | dlErr (msg : String)
  | otherErr
deriving DecidableEq

/-- The authentication-required classifier applied to a `DownloadError`
message (bot.py lines 364 and 490): a literal match on the sign-in phrase, or
`"use --cookies"`/`"cookies"` occurring in the lowercased message. -/
def isAuthMsg (m : String) : Bool :=
  strContainsSub "Sign in to confirm you’re not a bot" m ||
  strContainsLower "use --cookies" m ||
  strContainsLower "cookies" m

/-- A step outcome the loop treats as transient (retryable): any error that
is not a `DownloadError` classified as auth-required. -/
def isTransient : StepRes → Bool
  | .ok => false
  | .dlErr m => ! isAuthMsg m
  | .otherErr => true

/-- Terminal result of a retry loop, carrying the number of attempts made. -/
inductive RetryOut where
  | success (attempts : Nat)
  | authRequired (attempts : Nat)
  | exhausted (attempts : Nat)
deriving DecidableEq

/-- The shared retry loop of the metadata probe and of the download step:
`for attempt in range(MAX_DOWNLOAD_RETRIES + 1)` — on success, break; on a
`DownloadError` whose message matches the auth classifier, surface the
auth-required status and return at once; on any other failure, sleep
`1 + attempt * 2` and retry while `attempt < maxR`, else surface the terminal
failure.  Returns (outcome, list of sleeps performed).  The structural `fuel`
is a termination device only: it is called with `fuel = maxR + 1 - attempt`,
which is positive for every reachable `attempt ≤ maxR`, so the `fuel = 0`
case is never taken. -/
def retryGoF (step : Nat → StepRes) (maxR : Nat) : Nat → Nat → RetryOut × List Nat
  | attempt, 0 => (.exhausted (attempt + 1), [])
  | attempt, fuel + 1 =>
    match step attempt with
    | .ok => (.success (attempt + 1), [])
    | .dlErr m =>
      if isAuthMsg m then (.authRequired (attempt + 1), [])
      else if attempt < maxR then
        let r := retryGoF step maxR (attempt + 1) fuel
        (r.1, (1 + attempt * 2) :: r.2)
      else (.exhausted (attempt + 1), [])
    | .otherErr =>
      if attempt < maxR then
        let r := retryGoF step maxR (attempt + 1) fuel
        (r.1, (1 + attempt * 2) :: r.2)
      else (.exhausted (attempt + 1), [])

/-- The whole retry loop, started at attempt 0 with `maxR` extra attempts
allowed (`MAX_DOWNLOAD_RETRIES`). -/
def runRetries (step : Nat → StepRes) (maxR : Nat) : RetryOut × List Nat :=
  retryGoF step maxR 0 (maxR + 1)

/-- Default of the `MAX_DOWNLOAD_RETRIES` environment knob (bot.py line 28). -/
def MAX_DOWNLOAD_RETRIES_default : Nat := 2

lemma retryGoF_transient_step (step : Nat → StepRes) (maxR attempt fuel : Nat)
    (htr : isTransient (step attempt) = true) (hlt : attempt < maxR) :
    retryGoF step maxR attempt (fuel + 1) =
      ((retryGoF step maxR (attempt + 1) fuel).1,
        (1 + attempt * 2) :: (retryGoF step maxR (attempt + 1) fuel).2) := by
  cases hs : step attempt with
  | ok => rw [hs] at htr; simp [isTransient] at htr
  | dlErr m =>
    rw [hs] at htr
    have hauth : isAuthMsg m = false := by
      simpa [isTransient] using htr
    simp [retryGoF, hs, hauth, hlt]
  | otherErr => simp [retryGoF, hs, hlt]

lemma retryGoF_auth (step : Nat → StepRes) (maxR attempt fuel : Nat)
    (m : String) (h1 : step attempt = .dlErr m) (h2 : isAuthMsg m = true) :
    retryGoF step maxR attempt (fuel + 1) = (.authRequired (attempt + 1), []) := by
  simp [retryGoF, h1, h2]

lemma retryGoF_ok (step : Nat → StepRes) (maxR attempt fuel : Nat)
    (h : step attempt = .ok) :
    retryGoF step maxR attempt (fuel + 1) = (.success (attempt + 1), []) := by
  simp [retryGoF, h]

lemma retryGoF_last (step : Nat → StepRes) (maxR attempt fuel : Nat)
    (htr : isTransient (step attempt) = true) (hge : ¬ attempt < maxR) :
    retryGoF step maxR attempt (fuel + 1) = (.exhausted (attempt + 1), []) := by
  cases hs : step attempt with
  | ok => rw [hs] at htr; simp [isTransient] at htr
  | dlErr m =>
    rw [hs] at htr
    have hauth : isAuthMsg m = false := by
      simpa [isTransient] using htr
    simp [retryGoF, hs, hauth, hge]
  | otherErr => simp [retryGoF, hs, hge]

lemma consRangeMap {α : Type} (f : Nat → α) (k : Nat) :
    (List.range (k + 1)).map f = f 0 :: (List.range k).map (fun i => f (i + 1)) := by
  rw [List.range_succ_eq_map]
  simp only [List.map_cons, List.map_map]
  rfl

/-- Skipping `k` consecutive transient attempts: the loop performs the `k`
backoff sleeps and continues from attempt `attempt + k`. -/
lemma retryGoF_skip (step : Nat → StepRes) (maxR : Nat) :
    ∀ (k attempt fuel : Nat),
    attempt + k ≤ maxR →
    maxR + 1 ≤ attempt + fuel →
    (∀ j, attempt ≤ j → j < attempt + k → isTransient (step j) = true) →
    retryGoF step maxR attempt fuel =
      ((retryGoF step maxR (attempt + k) (fuel - k)).1,
        (List.range k).map (fun i => 1 + (attempt + i) * 2) ++
          (retryGoF step maxR (attempt + k) (fuel - k)).2) := by
  intro k
  induction k with
  | zero =>
    intro attempt fuel _ _ _
    simp
  | succ k ih =>
    intro attempt fuel hk hfuel htrans
    have hlt : attempt < maxR := by omega
    obtain ⟨f, rfl⟩ : ∃ f, fuel = f + 1 := ⟨fuel - 1, by omega⟩
    rw [retryGoF_transient_step step maxR attempt f
      (htrans attempt (le_refl _) (by omega)) hlt]
    have hrec := ih (attempt + 1) f (by omega) (by omega)
      (fun j hj1 hj2 => htrans j (by omega) (by omega))
    have hidx : attempt + 1 + k = attempt + (k + 1) := by omega
    have hfl : f - k = f + 1 - (k + 1) := by omega
    rw [hrec, hidx, hfl]
    refine congrArg₂ _ rfl ?_
    rw [consRangeMap (fun i => 1 + (attempt + i) * 2) k]
    simp only [List.cons_append, Nat.add_zero]
    refine congrArg₂ _ rfl (congrArg₂ _ ?_ rfl)
    apply List.map_congr_left
    intro a _
    omega

/-- Helper: an auth-classified `DownloadError` at attempt `k`, after `k`
transient attempts, ends the loop with the auth-required outcome at `k + 1`
attempts, having slept only before attempt `k`. -/
lemma runRetries_auth (step : Nat → StepRes) (maxR k : Nat) (m : String)
    (hk : k ≤ maxR)
    (hstep : step k = .dlErr m)
    (hauth : isAuthMsg m = true)
    (hbefore : ∀ j, j < k → isTransient (step j) = true) :
    runRetries step maxR =
      (.authRequired (k + 1), (List.range k).map (fun i => 1 + i * 2)) := by
  unfold runRetries
  rw [retryGoF_skip step maxR k 0 (maxR + 1) (by omega) (by omega)
    (fun j hj1 hj2 => hbefore j (by omega))]
  obtain ⟨g, hg⟩ : ∃ g, maxR + 1 - k = g + 1 := ⟨maxR - k, by omega⟩
  rw [Nat.zero_add, hg, retryGoF_auth step maxR k g m hstep hauth]
  simp

/-- C7: the transient-retry policy of both the metadata probe and the
download step.  If every attempt up to the bound fails transiently, the loop
makes exactly `maxR + 1` attempts (with default `maxR = 2`: 3 attempts
total), sleeping `1 + attempt * 2` time units after each failed non-final
attempt, and only then surfaces the terminal failure; if some attempt `k`
within the bound succeeds after transient failures, the loop ends in success
after `k + 1` attempts and does not fail. -/
theorem retry_transient_policy (step : Nat → StepRes) (maxR : Nat) :
    ((∀ j, j ≤ maxR → isTransient (step j) = true) →
      runRetries step maxR =
        (.exhausted (maxR + 1), (List.range maxR).map (fun i => 1 + i * 2))) ∧
    (∀ k, k ≤ maxR → step k = .ok → (∀ j, j < k → isTransient (step j) = true) →
      runRetries step maxR =
        (.success (k + 1), (List.range k).map (fun i => 1 + i * 2))) := by
  constructor
  · intro hall
    unfold runRetries
    rw [retryGoF_skip step maxR maxR 0 (maxR + 1) (by omega) (by omega)
      (fun j hj1 hj2 => hall j (by omega))]
    have h1 : maxR + 1 - maxR = 0 + 1 := by omega
    rw [Nat.zero_add, h1, retryGoF_last step maxR maxR 0
      (hall maxR (le_refl _)) (by omega)]
    simp
  · intro k hk hok hbefore
    unfold runRetries
    rw [retryGoF_skip step maxR k 0 (maxR + 1) (by omega) (by omega)
      (fun j hj1 hj2 => hbefore j (by omega))]
    obtain ⟨g, hg⟩ : ∃ g, maxR + 1 - k = g + 1 := ⟨maxR - k, by omega⟩
    rw [Nat.zero_add, hg, retryGoF_ok step maxR k g hok]
    simp

theorem retry_transient_policy_witness :
    runRetries (fun _ => StepRes.otherErr) MAX_DOWNLOAD_RETRIES_default =
      (.exhausted 3, [1, 3]) ∧
    runRetries (fun j => if j = 2 then .ok else .otherErr)
      MAX_DOWNLOAD_RETRIES_default = (.success 3, [1, 3]) := by
  constructor
  · have h := (retry_transient_policy (fun _ => StepRes.otherErr)
      MAX_DOWNLOAD_RETRIES_default).1 (by intro j hj; decide)
    exact h.trans (by decide)
  · have h := (retry_transient_policy (fun j => if j = 2 then .ok else .otherErr)
      MAX_DOWNLOAD_RETRIES_default).2 2 (by decide) (by decide)
      (by intro j hj; interval_cases j <;> decide)
    exact h.trans (by decide)

/- ===== MEDIA DESCRIPTORS (yt-dlp info dicts) ===== -/

/-- One yt-dlp format dict, restricted to the fields the program reads.
Absent dict keys are `none`. -/
structure Fmt where
  url : Option String := none
  vcodec : Option String := none
  acodec : Option String := none
  height : Option Nat := none
  filesize : Option Nat := none
  filesize_approx : Option Nat := none
deriving DecidableEq

/-- One element of an info dict's `entries` list (a sub-post of a multi-item
post), restricted to the fields the program reads. -/
structure SubEntry where
  formats : List Fmt := []
  requested_formats : List Fmt := []
  duration : Option Nat := none
  url : Option String := none
  ext : Option String := none
deriving DecidableEq

/-- A yt-dlp extraction result (info dict), restricted to the fields the
program reads.  `thumbnails` keeps only each thumbnail dict's `url` field. -/
structure InfoObj where
  formats : List Fmt := []
  requested_formats : List Fmt := []
  duration : Option Nat := none
  url : Option String := none
  ext : Option String := none
  entries : List SubEntry := []
  thumbnails : List (Option String) := []
deriving DecidableEq

/- ===== CLASSIFIER (bot.py lines 133-164) ===== -/

/-- First loop of `has_video_in_formats`: `vcodec = (f.get("vcodec") or
"").lower()`, counted when `vcodec and vcodec != "none"`. -/
def vcodecActive (f : Fmt) : Bool :=
  lowerData (f.vcodec.getD "") ≠ [] && lowerData (f.vcodec.getD "") ≠ "none".data

/-- Second loop of `has_video_in_formats` over `requested_formats`: counted
when `(f.get("vcodec") or "").lower() != "none"` — note that an absent or
empty vcodec also satisfies this test. -/
def reqVcodecNotNone (f : Fmt) : Bool :=
  lowerData (f.vcodec.getD "") ≠ "none".data

/-- Body shared by the classifier on top-level objects and on entries:
formats scan, then requested_formats scan, then duration truthiness. -/
def hasVideoCore (formats req : List Fmt) (dur : Option Nat) : Bool :=
  formats.any vcodecActive || req.any reqVcodecNotNone || natTruthy dur

/-- `has_video_in_formats(obj)` on a top-level info dict. -/
def has_video_in_formats (o : InfoObj) : Bool :=
  hasVideoCore o.formats o.requested_formats o.duration

/-- `has_video_in_formats(e)` applied to an entry (as `extract_image_urls`
does). -/
def hasVideoEntry (e : SubEntry) : Bool :=
  hasVideoCore e.formats e.requested_formats e.duration

/-- The image extensions accepted by `extract_image_urls`. -/
def IMAGE_EXTS : List (List Char) :=
  ["jpg".data, "jpeg".data, "png".data, "webp".data]

/-- `(x.get("ext") or "").lower() in ("jpg", "jpeg", "png", "webp")`. -/
def extImageOk (e : Option String) : Bool :=
  IMAGE_EXTS.contains (lowerData (e.getD ""))

/-- First collection pass of `extract_image_urls`: entries that are not
video-bearing, have a truthy `url`, and an accepted image extension. -/
def entryImages (o : InfoObj) : List String :=
  (o.entries.filter
    (fun e => !hasVideoEntry e && strTruthy e.url && extImageOk e.ext)).map
    (fun e => e.url.getD "")

/-- Second collection pass: the single top-level `url` when it is truthy and
carries an accepted image extension. -/
def topImage (o : InfoObj) : List String :=
  if strTruthy o.url && extImageOk o.ext then [o.url.getD ""] else []

/-- Third collection pass: every thumbnail with a truthy `url`. -/
def thumbImages (o : InfoObj) : List String :=
  (o.thumbnails.filter strTruthy).map (fun t => t.getD "")

/-- `extract_image_urls(info_obj)`: empty for video-bearing objects,
otherwise entries first, then the top-level image, then thumbnails, stopping
at the first non-empty pass. -/
def extract_image_urls (o : InfoObj) : List String :=
  if has_video_in_formats o = true then []
  else
    let i1 := entryImages o
    let i2 := if i1.isEmpty then topImage o else i1
    if i2.isEmpty then thumbImages o else i2

/-- Modelled from the spec: "classify the successful result as video-bearing
if any candidate source or any sub-entry declares a non-empty video codec, or
if a duration is present" — a declared vcodec that is non-empty and not the
literal `"none"`, anywhere in the top-level sources or in a sub-entry's
sources, or a present duration. -/
def specNonEmptyVcodec (f : Fmt) : Bool :=
  match f.vcodec with
  | some v => v ≠ "" && lowerData v ≠ "none".data
  | none => false

/-- Modelled from the spec (see `specNonEmptyVcodec`): the spec's
video-bearing classification, used only to compare against the code's
`has_video_in_formats`. -/
def specVideoBearing (o : InfoObj) : Bool :=
  (o.formats ++ o.requested_formats).any specNonEmptyVcodec ||
  o.entries.any (fun e => (e.formats ++ e.requested_formats).any specNonEmptyVcodec) ||
  o.duration.isSome

/- ===== C8: classification and photo-set collection ===== -/

lemma natTruthy_iff (d : Option Nat) :
    natTruthy d = true ↔ ∃ n, d = some n ∧ n ≠ 0 := by
  cases d with
  | none => simp [natTruthy]
  | some n => simp [natTruthy]

/-- Counterexample to C8 as stated: an extraction result whose only content
is a single `requested_formats` entry with no declared vcodec at all (and no
duration) is classified video-bearing by the code — the `requested_formats`
scan tests `(f.get("vcodec") or "").lower() != "none"`, which an absent
vcodec satisfies — while the spec's classification (non-empty declared video
codec somewhere, or a duration present) calls it a photo-set. -/
theorem classify_video_counterexample :
    has_video_in_formats { requested_formats := [{}] } = true ∧
    specVideoBearing { requested_formats := [{}] } = false := by
  exact ⟨by decide, by decide⟩

/-- C8 (amended): the code classifies a result as video-bearing iff some
format declares a vcodec that lowercases to a non-empty string other than
`"none"`, or some `requested_formats` entry has a vcodec (possibly absent or
empty) that does not lowercase to the literal `"none"`, or a non-zero
duration is present; a video-bearing result yields no image sources, and a
non-video-bearing one collects images from entries first, then from the
single top-level image field, then from thumbnails, stopping at the first
non-empty source list. -/
theorem classify_and_collect (o : InfoObj) :
    (has_video_in_formats o = true ↔
      ((∃ f ∈ o.formats,
          lowerData (f.vcodec.getD "") ≠ [] ∧
          lowerData (f.vcodec.getD "") ≠ "none".data) ∨
       (∃ f ∈ o.requested_formats, lowerData (f.vcodec.getD "") ≠ "none".data) ∨
       (∃ n, o.duration = some n ∧ n ≠ 0))) ∧
    (has_video_in_formats o = true → extract_image_urls o = []) ∧
    (has_video_in_formats o = false →
      extract_image_urls o =
        (if entryImages o ≠ [] then entryImages o
         else if topImage o ≠ [] then topImage o
         else thumbImages o)) := by
  refine ⟨?_, ?_, ?_⟩
  · simp only [has_video_in_formats, hasVideoCore, Bool.or_eq_true,
      List.any_eq_true, vcodecActive, reqVcodecNotNone, natTruthy_iff,
      Bool.and_eq_true, decide_eq_true_eq]
    exact or_assoc
  · intro h
    simp [extract_image_urls, h]
  · intro h
    simp only [extract_image_urls, h, Bool.false_eq_true, if_false]
    cases hE : entryImages o with
    | nil =>
      cases hT : topImage o with
      | nil => simp
      | cons a l => simp
    | cons a l => simp

/-- Concrete photo-set object: two image entries, one with an uppercase
extension, neither video-bearing. -/
def photoObj : InfoObj :=
  { entries := [{ url := some "http://img1", ext := some "jpg" },
                { url := some "http://img2", ext := some "JPG" }] }

theorem classify_and_collect_witness :
    has_video_in_formats photoObj = false ∧
    extract_image_urls photoObj = ["http://img1", "http://img2"] := by
  have h := (classify_and_collect photoObj).2.2 (by decide)
  exact ⟨by decide, h.trans (by decide)⟩

/- ===== OBSERVABLE EVENTS of the background processor ===== -/

/-- Which artifact a successful video send carried. -/
inductive SendKind where
  | direct
  | original
  | fitted
deriving DecidableEq

/-- Observable effects of one request's background processing, in order:
backoff sleeps, terminal status edits, transport sends, cache writes. -/
inductive Ev where
  | sleep (n : Nat)
  | statusAuthRequired
  | statusFailed
  | statusDone
  | sentVideo (k : SendKind)
  | sentPhoto (withCaption : Bool)
  | sentDocument
  | mediaGroup (size : Nat) (captionOnFirst : Bool)
  | cacheWrite
deriving DecidableEq

/- ===== DIRECT-DELIVERY PLANNER (bot.py lines 240-280, 408-444) ===== -/

/-- `f.get("filesize") or f.get("filesize_approx")` under Python truthiness:
the first present non-zero size, `none` when both are absent or zero. -/
def pyFsize (f : Fmt) : Option Nat :=
  if natTruthy f.filesize then f.filesize
  else if natTruthy f.filesize_approx then f.filesize_approx
  else none

/-- Candidate filter of `choose_direct_format`: a truthy `url`, and not
(vcodec lowercases to `"none"` while `acodec` is falsy). -/
def fmtKeep (f : Fmt) : Bool :=
  strTruthy f.url &&
  ! (decide (lowerData (f.vcodec.getD "") = "none".data) && ! strTruthy f.acodec)

/-- `f.get("height") or 0`. -/
def scoreHeight (f : Fmt) : Nat := f.height.getD 0

/-- The sort key comparison of `candidates.sort(key=score, reverse=True)`
with `score(f) = (height, -size)`: `a` sorts at or before `b` iff `a`'s
height is larger, or heights tie and `a`'s size is at most `b`'s. -/
def keyGE (a b : Fmt) : Bool :=
  decide (scoreHeight b < scoreHeight a) ||
  (decide (scoreHeight a = scoreHeight b) &&
    decide ((pyFsize a).getD 0 ≤ (pyFsize b).getD 0))

/-- Stable insertion placing `a` before the first element it compares
at-or-before. -/
def insertDescBy {α : Type} (le : α → α → Bool) (a : α) : List α → List α
  | [] => [a]
  | b :: bs => if le a b then a :: b :: bs else b :: insertDescBy le a bs

/-- Stable sort by a total comparison; with `keyGE` this reproduces Python's
stable `list.sort(key=..., reverse=True)` (equal keys keep original order:
each element is inserted in front of only the already-placed elements it
strictly precedes or key-ties with, and those all originate later). -/
def sortDescBy {α : Type} (le : α → α → Bool) : List α → List α
  | [] => []
  | a :: as => insertDescBy le a (sortDescBy le as)

/-- The declared-size acceptance test of the selection loop:
`fs = f.get("filesize") or f.get("filesize_approx"); fs and fs <= max_bytes`. -/
def fsizeOkB (f : Fmt) (maxBytes : Nat) : Bool :=
  match pyFsize f with
  | some s => decide (s ≤ maxBytes)
  | none => false

/-- `choose_direct_format(info, max_bytes)`: filter candidates, sort by
(height desc, size asc), return the first candidate with a known size within
the limit — or, when none qualifies, the best-ranked candidate (`return
candidates[0]`), never `None` while any candidate exists. -/
def choose_direct_format (info : InfoObj) (maxBytes : Nat) : Option Fmt :=
  let candidates := info.formats.filter fmtKeep
  if candidates.isEmpty then none
  else
    let sorted := sortDescBy keyGE candidates
    match sorted.find? (fun f => fsizeOkB f maxBytes) with
    | some f => some f
    | none => sorted.head?

/-- Inputs of the fast path (bot.py lines 408-444), with the external world
abstracted: the probed `Content-Length` of the chosen candidate's URL
(`none` when the HEAD request failed or carried no length), whether the
transport send succeeds, and whether the transport's reply carries a video
handle (`sent.video`). -/
structure FastInput where
  info : InfoObj
  ceiling : Nat
  headSize : Option Nat
  sendOk : Bool
  sentHasVideo : Bool
deriving DecidableEq

/-- Terminal state of the fast path: a completed direct send (recording the
size under which the candidate was accepted), or fall through to the
download path. -/
inductive FastOut where
  | direct (accepted : Nat)
  | fallthrough
deriving DecidableEq

/-- A direct send: on transport success the video goes out, the cache is
written when the reply carries a video handle (`if sent.video:` guarding
`set_cache`), and the success status is posted; a transport exception is
swallowed and the path falls through. -/
def sendDirectEvents (fi : FastInput) (s : Nat) : List Ev × FastOut :=
  if fi.sendOk then
    (if fi.sentHasVideo then [.sentVideo .direct, .cacheWrite, .statusDone]
     else [.sentVideo .direct, .statusDone], .direct s)
  else ([], .fallthrough)

/-- The HEAD-probe branch: taken when the declared size was falsy or over
the limit; sends only if the probed length is truthy and within the limit. -/
def headBranch (fi : FastInput) (f : Fmt) : List Ev × FastOut :=
  if strTruthy f.url then
    match fi.headSize with
    | some h => if h ≠ 0 ∧ h ≤ fi.ceiling then sendDirectEvents fi h
                else ([], .fallthrough)
    | none => ([], .fallthrough)
  else ([], .fallthrough)

/-- The fast path of `process_url_in_background`: consult
`choose_direct_format`; send directly when the declared size is truthy and
within the limit; otherwise HEAD-probe the candidate's URL and send when the
probed size is truthy and within the limit; otherwise fall through to the
download path. -/
def fastPath (fi : FastInput) : List Ev × FastOut :=
  match choose_direct_format fi.info fi.ceiling with
  | none => ([], .fallthrough)
  | some f =>
    match pyFsize f with
    | some s =>
      if s ≤ fi.ceiling then sendDirectEvents fi s
      else headBranch fi f
    | none => headBranch fi f

/- ===== C2: direct-delivery safety ===== -/

/-- A single candidate declaring a size just over the ceiling. -/
def cexFmt : Fmt :=
  { url := some "http://v", vcodec := some "h264", height := some 720,
    filesize := some 49 }

/-- An extraction result whose only format is `cexFmt`. -/
def cexInfo : InfoObj := { formats := [cexFmt] }

/-- Counterexample to C2 as stated: with a single candidate whose declared
size (49) exceeds the ceiling (48), `choose_direct_format` does not return
`None` — its selection loop finds no candidate within the limit and then
executes `return candidates[0]`, returning the oversized candidate. -/
theorem planner_counterexample :
    choose_direct_format cexInfo 48 = some cexFmt ∧
    pyFsize cexFmt = some 49 ∧ ¬ (49 ≤ 48) := by
  exact ⟨by decide, by decide, by decide⟩

/-- C2 (amended): `choose_direct_format` itself may return a candidate whose
known size exceeds the ceiling (it returns the best-ranked candidate instead
of `None` when none fits), but the caller's fast path completes a direct
send only under a size known to be within the ceiling — the size under which
the candidate was accepted (declared, or HEAD-probed) never exceeds the
ceiling — and whenever the chosen candidate's declared size is unknown or
over the ceiling and the probed size is likewise unknown, zero, or over the
ceiling, the fast path performs no send and falls through to the full
download. -/
theorem direct_send_size_safety (fi : FastInput) :
    (∀ s evs, fastPath fi = (evs, .direct s) → s ≤ fi.ceiling) ∧
    (∀ f, choose_direct_format fi.info fi.ceiling = some f →
      (∀ s, pyFsize f = some s → fi.ceiling < s) →
      (∀ h, fi.headSize = some h → h = 0 ∨ fi.ceiling < h) →
      fastPath fi = ([], .fallthrough)) := by
  constructor
  · intro s evs hrun
    have hsend : ∀ t, sendDirectEvents fi t = (evs, FastOut.direct s) → s = t := by
      intro t hs
      unfold sendDirectEvents at hs
      by_cases hok : fi.sendOk = true
      · rw [if_pos hok] at hs
        have h2 := congrArg Prod.snd hs
        simp only [FastOut.direct.injEq] at h2
        exact h2.symm
      · rw [if_neg hok] at hs
        have h2 := congrArg Prod.snd hs
        exact FastOut.noConfusion h2
    have hhead : ∀ f, headBranch fi f = (evs, FastOut.direct s) → s ≤ fi.ceiling := by
      intro f hb
      unfold headBranch at hb
      by_cases hu : strTruthy f.url = true
      · rw [if_pos hu] at hb
        cases hh : fi.headSize with
        | none => rw [hh] at hb; dsimp only at hb; cases hb
        | some h =>
          rw [hh] at hb
          dsimp only at hb
          by_cases hcond : h ≠ 0 ∧ h ≤ fi.ceiling
          · rw [if_pos hcond] at hb
            have := hsend h hb
            omega
          · rw [if_neg hcond] at hb; cases hb
      · rw [if_neg hu] at hb; cases hb
    unfold fastPath at hrun
    cases hc : choose_direct_format fi.info fi.ceiling with
    | none => rw [hc] at hrun; cases hrun
    | some f =>
      rw [hc] at hrun
      dsimp only at hrun
      cases hfs : pyFsize f with
      | none => rw [hfs] at hrun; dsimp only at hrun; exact hhead f hrun
      | some t =>
        rw [hfs] at hrun
        dsimp only at hrun
        by_cases hle : t ≤ fi.ceiling
        · rw [if_pos hle] at hrun
          have := hsend t hrun
          omega
        · rw [if_neg hle] at hrun
          exact hhead f hrun
  · intro f hc hdecl hprobe
    unfold fastPath
    rw [hc]
    dsimp only
    have hhead : headBranch fi f = ([], .fallthrough) := by
      unfold headBranch
      by_cases hu : strTruthy f.url = true
      · rw [if_pos hu]
        cases hh : fi.headSize with
        | none => rfl
        | some h =>
          have := hprobe h hh
          have hcond : ¬ (h ≠ 0 ∧ h ≤ fi.ceiling) := by omega
          dsimp only
          rw [if_neg hcond]
      · rw [if_neg hu]
    cases hfs : pyFsize f with
    | none => exact hhead
    | some s =>
      have := hdecl s hfs
      dsimp only
      rw [if_neg (by omega)]
      exact hhead

/-- Fast-path input built over `cexInfo` with no usable HEAD probe. -/
def cexFast : FastInput :=
  { info := cexInfo, ceiling := 48, headSize := none, sendOk := true,
    sentHasVideo := true }

theorem direct_send_size_safety_witness :
    fastPath cexFast = ([], .fallthrough) := by
  refine (direct_send_size_safety cexFast).2 cexFmt (by decide) ?_ ?_
  · intro s hs
    have h49 : pyFsize cexFmt = some 49 := by decide
    rw [h49] at hs
    injection hs with h'
    have hc : cexFast.ceiling = 48 := rfl
    omega
  · intro h hh
    exact Option.noConfusion hh

/- ===== PHOTO-SET SENDING (bot.py lines 166-181, 446-463) ===== -/

/-- The orchestrator's photo-set branch (bot.py lines 446-463): when the
result is not video-bearing and image URLs were collected, it sends each
image with an individual `send_photo` call, in order, attaching the caption
only to the image at index 0.  It performs no media-group (batch) sends. -/
def orchestratorImageEvents (o : InfoObj) : List Ev :=
  if has_video_in_formats o = true then []
  else
    (extract_image_urls o).enum.map (fun p => Ev.sentPhoto (decide (p.1 = 0)))

/-- `l[i:i+n]` slices of `range(0, len(l), n)`: the 10-per-batch chunking of
`send_image_group_safe`.  The structural `fuel` is a termination device
only; it is called with `fuel = l.length`, which suffices because each step
consumes at least one element (`n ≥ 1` in the only use, `n = 10`). -/
def chunksF {α : Type} (n : Nat) : Nat → List α → List (List α)
  | _, [] => []
  | 0, _ :: _ => []
  | fuel + 1, a :: rest => ((a :: rest).take n) :: chunksF n fuel ((a :: rest).drop n)

/-- `chunks n l`: the batches `l[0:n], l[n:2n], ...`. -/
def chunks {α : Type} (n : Nat) (l : List α) : List (List α) :=
  chunksF n l.length l

/-- `send_image_group_safe(message, image_urls, caption)`: 10-image batches
sent as media groups (the caption only on the first image of the first
batch, `i == 0 and j == 0`); on a batch's transport failure (`groupOk`
oracle, per batch index), that batch's images are sent individually instead,
with the same caption rule. -/
def send_image_group_safe (urls : List String) (groupOk : Nat → Bool) : List Ev :=
  ((chunks 10 urls).enum.map (fun p =>
    if groupOk p.1 then [Ev.mediaGroup p.2.length (decide (p.1 = 0))]
    else p.2.enum.map
      (fun q => Ev.sentPhoto (decide (p.1 = 0) && decide (q.1 = 0))))).flatten

/-- Is this event a media-group (batched) send? -/
def isMediaGroupEv : Ev → Bool
  | .mediaGroup _ _ => true
  | _ => false

/-- A 23-image photo set (no video formats, 23 image entries). -/
def photoSet23 : InfoObj :=
  { entries := List.replicate 23 { url := some "http://img", ext := some "jpg" } }

/-- Counterexample to C5 as stated: on a 23-image photo set the orchestrator
performs 23 individual `send_photo` calls (caption on the first only) and
zero media-group (batch) sends — the 10-per-batch helper
`send_image_group_safe` exists in the program but the orchestrator never
calls it. -/
theorem photo_batching_counterexample :
    orchestratorImageEvents photoSet23 =
      Ev.sentPhoto true :: List.replicate 22 (Ev.sentPhoto false) ∧
    (orchestratorImageEvents photoSet23).countP isMediaGroupEv = 0 := by
  exact ⟨by decide, by decide⟩

lemma enumFrom_photo (l : List String) : ∀ n, n ≠ 0 →
    (l.enumFrom n).map (fun p => Ev.sentPhoto (decide (p.1 = 0))) =
      l.map (fun _ => Ev.sentPhoto false) := by
  induction l with
  | nil => intro n _; rfl
  | cons a l ih =>
    intro n hn
    have hd : decide (n = 0) = false := by simp [hn]
    simp only [List.enumFrom, List.map_cons, hd]
    rw [ih (n + 1) (by omega)]

/-- C5 (amended): the orchestrator sends a photo set's images one per
message, in order, with the caption only on the first; the (uncalled) helper
`send_image_group_safe` is the one that batches 10 per media group with the
caption on the first image of the first batch — for 23 images it would send
batches of 10, 10 and 3 in order, and with every batch send failing it would
fall back to 23 individual sends with the caption only on the first. -/
theorem photo_send_shape :
    (∀ (o : InfoObj) (u : String) (us : List String),
      has_video_in_formats o = false → extract_image_urls o = u :: us →
      orchestratorImageEvents o =
        Ev.sentPhoto true :: us.map (fun _ => Ev.sentPhoto false)) ∧
    send_image_group_safe (List.replicate 23 "http://img") (fun _ => true) =
      [Ev.mediaGroup 10 true, Ev.mediaGroup 10 false, Ev.mediaGroup 3 false] ∧
    send_image_group_safe (List.replicate 23 "http://img") (fun _ => false) =
      Ev.sentPhoto true :: List.replicate 22 (Ev.sentPhoto false) := by
  refine ⟨?_, by decide, by decide⟩
  intro o u us hvid hx
  simp only [orchestratorImageEvents, hvid, Bool.false_eq_true, if_false, hx]
  rw [show (u :: us).enum = (0, u) :: us.enumFrom 1 from rfl]
  simp only [List.map_cons]
  rw [enumFrom_photo us 1 (by omega)]
  rfl

theorem photo_send_shape_witness :
    orchestratorImageEvents photoObj = [Ev.sentPhoto true, Ev.sentPhoto false] := by
  have h := photo_send_shape.1 photoObj "http://img1" ["http://img2"]
    (by decide) (by decide)
  exact h.trans (by decide)

/- ===== POST-DOWNLOAD PHASE (bot.py lines 526-606) ===== -/

/-- Inputs of the post-download send/transcode phase, with the external
world abstracted: whether `yt-dlp` produced a file (`filename` truthy and
existing), its size, the ceiling, whether each transport send succeeds,
whether `transcode_high_quality` raises, whether its output file exists and
its size. -/
structure DlInput where
  downloaded : Bool
  size : Nat
  ceiling : Nat
  sendOriginalOk : Bool
  transcodeRaises : Bool
  outExists : Bool
  outSize : Nat
  sendFittedOk : Bool
  docSendOk : Bool
deriving DecidableEq

/-- Terminal states of the post-download phase. -/
inductive DlOutcome where
  | artifactMissing
  | doneOriginal
  | doneFitted
  | doneDocument
  | transcodeFailed
  | tooHeavyAfterFit
  | finalFailed
deriving DecidableEq

/-- Result of the post-download phase: its event trace, terminal state,
whether the downloaded file was removed (`os.remove(filename)`), and whether
the transcode output's temporary directory was reclaimed (trivially true on
paths that never create it; the `with tempfile.TemporaryDirectory()` block
reclaims it on every exit, including exceptions). -/
structure PhaseResult where
  events : List Ev
  outcome : DlOutcome
  origRemoved : Bool
  tmpReclaimed : Bool
deriving DecidableEq

/-- The last-resort document fallback (bot.py lines 584-606), reached when
the transcode block raised or a send inside it failed: the failure status is
posted, then the original file is sent as a document; neither branch removes
the downloaded file. -/
def docFallback (i : DlInput) : PhaseResult :=
  if i.docSendOk = true then
    { events := [.statusFailed, .sentDocument, .statusDone],
      outcome := .doneDocument, origRemoved := false, tmpReclaimed := true }
  else
    { events := [.statusFailed, .statusFailed],
      outcome := .finalFailed, origRemoved := false, tmpReclaimed := true }

/-- The transcode block (bot.py lines 558-606): raise → document fallback;
missing output → failure exit; output still over the ceiling → failure exit;
otherwise send the fitted file (success removes the downloaded file; a send
exception goes to the document fallback).  The temporary directory holding
the fitted output is reclaimed on every exit. -/
def transcodePhase (i : DlInput) : PhaseResult :=
  if i.transcodeRaises = true then docFallback i
  else if i.outExists = false then
    { events := [.statusFailed], outcome := .transcodeFailed,
      origRemoved := false, tmpReclaimed := true }
  else if i.ceiling < i.outSize then
    { events := [.statusFailed], outcome := .tooHeavyAfterFit,
      origRemoved := false, tmpReclaimed := true }
  else if i.sendFittedOk = true then
    { events := [.sentVideo .fitted, .statusDone], outcome := .doneFitted,
      origRemoved := true, tmpReclaimed := true }
  else docFallback i

/-- The post-download phase (bot.py lines 526-606): missing artifact →
terminal failure; size within the ceiling and the original send succeeds →
done (removing the downloaded file); otherwise (over the ceiling, or the
original send failed) → transcode block. -/
def afterDownload (i : DlInput) : PhaseResult :=
  if i.downloaded = false then
    { events := [.statusFailed], outcome := .artifactMissing,
      origRemoved := false, tmpReclaimed := true }
  else if i.size ≤ i.ceiling ∧ i.sendOriginalOk = true then
    { events := [.sentVideo .original, .statusDone], outcome := .doneOriginal,
      origRemoved := true, tmpReclaimed := true }
  else transcodePhase i

/-- A request whose downloaded file fits the ceiling and whose original-send
succeeds. -/
def dlHappy : DlInput :=
  { downloaded := true, size := 10, ceiling := 48, sendOriginalOk := true,
    transcodeRaises := false, outExists := true, outSize := 0,
    sendFittedOk := true, docSendOk := true }

/-- A request whose oversized download transcodes successfully to a fitted
file that is sent. -/
def dlFitted : DlInput :=
  { downloaded := true, size := 100, ceiling := 48, sendOriginalOk := true,
    transcodeRaises := false, outExists := true, outSize := 40,
    sendFittedOk := true, docSendOk := true }

/-- Counterexample to C1 as stated: both the successful send of the original
downloaded file and the successful send of the re-encoded (fitted) file
reach their terminal success state with no cache write at all — `set_cache`
is called only on the direct-link fast path. -/
theorem download_send_no_cache_counterexample :
    (afterDownload dlHappy).outcome = .doneOriginal ∧
    Ev.sentVideo .original ∈ (afterDownload dlHappy).events ∧
    Ev.cacheWrite ∉ (afterDownload dlHappy).events ∧
    (afterDownload dlFitted).outcome = .doneFitted ∧
    Ev.sentVideo .fitted ∈ (afterDownload dlFitted).events ∧
    Ev.cacheWrite ∉ (afterDownload dlFitted).events := by
  refine ⟨by decide, by decide, by decide, by decide, by decide, by decide⟩

/-- C1 (amended): the cache is written only on the direct-link fast path —
the post-download phase (original, fitted, and document sends) never writes
the cache on any input, while a completed fast-path direct send whose
transport reply carries a video handle writes the cache entry before posting
the terminal success status. -/
theorem cache_write_only_direct (i : DlInput) (fi : FastInput) :
    Ev.cacheWrite ∉ (afterDownload i).events ∧
    (∀ s evs, fastPath fi = (evs, .direct s) → fi.sentHasVideo = true →
      evs = [.sentVideo .direct, .cacheWrite, .statusDone]) := by
  constructor
  · by_cases h1 : i.downloaded = false <;>
    by_cases h2 : i.size ≤ i.ceiling ∧ i.sendOriginalOk = true <;>
    by_cases h3 : i.transcodeRaises = true <;>
    by_cases h4 : i.outExists = false <;>
    by_cases h5 : i.ceiling < i.outSize <;>
    by_cases h6 : i.sendFittedOk = true <;>
    by_cases h7 : i.docSendOk = true <;>
    simp [afterDownload, transcodePhase, docFallback, h1, h2, h3, h4, h5, h6, h7]
  · intro s evs hrun hvid
    have hsend : ∀ t, sendDirectEvents fi t = (evs, FastOut.direct s) →
        evs = [.sentVideo .direct, .cacheWrite, .statusDone] := by
      intro t hs
      unfold sendDirectEvents at hs
      by_cases hok : fi.sendOk = true
      · rw [if_pos hok, hvid, if_pos rfl] at hs
        exact (congrArg Prod.fst hs).symm
      · rw [if_neg hok] at hs
        exact FastOut.noConfusion (congrArg Prod.snd hs)
    have hhead : ∀ f, headBranch fi f = (evs, FastOut.direct s) →
        evs = [.sentVideo .direct, .cacheWrite, .statusDone] := by
      intro f hb
      unfold headBranch at hb
      by_cases hu : strTruthy f.url = true
      · rw [if_pos hu] at hb
        cases hh : fi.headSize with
        | none => rw [hh] at hb; dsimp only at hb; cases hb
        | some h =>
          rw [hh] at hb
          dsimp only at hb
          by_cases hcond : h ≠ 0 ∧ h ≤ fi.ceiling
          · rw [if_pos hcond] at hb
            exact hsend h hb
          · rw [if_neg hcond] at hb; cases hb
      · rw [if_neg hu] at hb; cases hb
    unfold fastPath at hrun
    cases hc : choose_direct_format fi.info fi.ceiling with
    | none => rw [hc] at hrun; cases hrun
    | some f =>
      rw [hc] at hrun
      dsimp only at hrun
      cases hfs : pyFsize f with
      | none => rw [hfs] at hrun; dsimp only at hrun; exact hhead f hrun
      | some t =>
        rw [hfs] at hrun
        dsimp only at hrun
        by_cases hle : t ≤ fi.ceiling
        · rw [if_pos hle] at hrun
          exact hsend t hrun
        · rw [if_neg hle] at hrun
          exact hhead f hrun

/-- A fast-path input that completes a declared-size direct send. -/
def okFmt : Fmt :=
  { url := some "http://v", vcodec := some "h264", height := some 720,
    filesize := some 40 }

/-- Info and fast-path input around `okFmt`. -/
def okInfo : InfoObj := { formats := [okFmt] }

/-- Fast-path input that direct-sends `okFmt` under a 48-byte ceiling. -/
def okFast : FastInput :=
  { info := okInfo, ceiling := 48, headSize := none, sendOk := true,
    sentHasVideo := true }

theorem cache_write_only_direct_witness :
    Ev.cacheWrite ∉ (afterDownload dlHappy).events ∧
    fastPath okFast =
      ([.sentVideo .direct, .cacheWrite, .statusDone], .direct 40) := by
  exact ⟨(cache_write_only_direct dlHappy okFast).1, by decide⟩

/-- A request that downloads an oversized file whose transcode output is
still over the ceiling: the phase fails and the downloaded file is not
removed. -/
def dlTooHeavy : DlInput :=
  { downloaded := true, size := 100, ceiling := 48, sendOriginalOk := true,
    transcodeRaises := false, outExists := true, outSize := 60,
    sendFittedOk := true, docSendOk := true }

/-- Counterexample to C4 as stated: the `too-heavy-after-fit` failure exit
leaves the downloaded file on disk — no cleanup runs on that exit path. -/
theorem cleanup_leak_counterexample :
    (afterDownload dlTooHeavy).outcome = .tooHeavyAfterFit ∧
    (afterDownload dlTooHeavy).origRemoved = false := by
  exact ⟨by decide, by decide⟩

/-- C4 (amended): the downloaded file is removed exactly on the two
successful video-send exits (original sent within the ceiling, or fitted
file sent); every failure exit and the document-fallback exit leave it on
disk.  The re-encoded output's temporary directory is reclaimed on every
exit. -/
theorem cleanup_only_on_success (i : DlInput) :
    ((afterDownload i).origRemoved = true ↔
      ((afterDownload i).outcome = .doneOriginal ∨
       (afterDownload i).outcome = .doneFitted)) ∧
    (afterDownload i).tmpReclaimed = true := by
  by_cases h1 : i.downloaded = false <;>
  by_cases h2 : i.size ≤ i.ceiling ∧ i.sendOriginalOk = true <;>
  by_cases h3 : i.transcodeRaises = true <;>
  by_cases h4 : i.outExists = false <;>
  by_cases h5 : i.ceiling < i.outSize <;>
  by_cases h6 : i.sendFittedOk = true <;>
  by_cases h7 : i.docSendOk = true <;>
  simp [afterDownload, transcodePhase, docFallback, h1, h2, h3, h4, h5, h6, h7]

theorem cleanup_only_on_success_witness :
    (afterDownload dlHappy).origRemoved = true :=
  (cleanup_only_on_success dlHappy).1.mpr (Or.inl (by decide))

/- ===== C6: auth-required failures are terminal ===== -/

/-- The observable effects of one retry phase (metadata probe, bot.py lines
355-398, or the identically structured download loop, lines 479-524): the
backoff sleeps in order, then the terminal status edit — the distinct
auth-required message, or the generic failure message when the bound is
exhausted.  No branch of either loop calls `set_cache`. -/
def probePhase (step : Nat → StepRes) (maxR : Nat) : List Ev :=
  (runRetries step maxR).2.map Ev.sleep ++
    (match (runRetries step maxR).1 with
     | .success _ => []
     | .authRequired _ => [Ev.statusAuthRequired]
     | .exhausted _ => [Ev.statusFailed])

/-- C6: an extraction or download failure classified auth-required (the
extractor's `DownloadError` message reports a login/cookie requirement)
ends the request at once: the loop stops at `k + 1` attempts with the
auth-required outcome (zero further retries — only the `k` backoff sleeps
that preceded attempt `k` were performed), the phase surfaces the distinct
auth-required status, and its event trace contains no cache write. -/
theorem auth_required_terminal (step : Nat → StepRes) (maxR k : Nat) (m : String)
    (hk : k ≤ maxR)
    (hstep : step k = .dlErr m)
    (hauth : isAuthMsg m = true)
    (hbefore : ∀ j, j < k → isTransient (step j) = true) :
    runRetries step maxR =
      (.authRequired (k + 1), (List.range k).map (fun i => 1 + i * 2)) ∧
    probePhase step maxR =
      ((List.range k).map (fun i => 1 + i * 2)).map Ev.sleep ++
        [Ev.statusAuthRequired] ∧
    Ev.cacheWrite ∉ probePhase step maxR := by
  have h := runRetries_auth step maxR k m hk hstep hauth hbefore
  have hph : probePhase step maxR =
      ((List.range k).map (fun i => 1 + i * 2)).map Ev.sleep ++
        [Ev.statusAuthRequired] := by
    simp [probePhase, h]
  refine ⟨h, hph, ?_⟩
  rw [hph]
  simp

theorem auth_required_terminal_witness :
    runRetries
      (fun j => if j = 1 then .dlErr "ERROR: please use --cookies for this site" else .otherErr)
      MAX_DOWNLOAD_RETRIES_default = (.authRequired 2, [1]) ∧
    probePhase
      (fun j => if j = 1 then .dlErr "ERROR: please use --cookies for this site" else .otherErr)
      MAX_DOWNLOAD_RETRIES_default = [Ev.sleep 1, Ev.statusAuthRequired] := by
  have h := auth_required_terminal
    (fun j => if j = 1 then .dlErr "ERROR: please use --cookies for this site" else .otherErr)
    MAX_DOWNLOAD_RETRIES_default 1 "ERROR: please use --cookies for this site"
    (by decide) (by decide) (by decide) (by decide)
  exact ⟨h.1.trans (by decide), h.2.1.trans (by decide)⟩

/- ===== INBOUND HANDLER (bot.py lines 39-47, 633-667) ===== -/

/-- Python's `\s` on the ASCII range (the strings the admission logic
compares are ASCII): space, tab, newline, vertical tab, form feed, carriage
return. -/
def pySpace (c : Char) : Bool :=
  c == ' ' || c == '\t' || c == '\n' || c == '\x0b' || c == '\x0c' || c == '\r'

/-- Python `str.strip()`: remove leading and trailing whitespace. -/
def pyStrip (cs : List Char) : List Char :=
  ((cs.dropWhile pySpace).reverse.dropWhile pySpace).reverse

/-- The `"://"` part of the URL pattern. -/
def matchSchemeTail : List Char → Option (List Char)
  | ':' :: '/' :: '/' :: r => some r
  | _ => none

/-- The `https?://` part of `URL_REGEX` (case-insensitive `http`, optional
`s`, then `://`); returns the remainder after the scheme. -/
def matchScheme : List Char → Option (List Char)
  | c1 :: c2 :: c3 :: c4 :: rest =>
    if c1.toLower == 'h' && c2.toLower == 't' && c3.toLower == 't' && c4.toLower == 'p' then
      match rest with
      | c5 :: r2 =>
        if c5.toLower == 's' then
          match matchSchemeTail r2 with
          | some r => some r
          | none => matchSchemeTail rest
        else matchSchemeTail rest
      | [] => none
    else none
  | _ => none

/-- One attempt of `URL_REGEX` (`https?://[^\s]+`, IGNORECASE) at the start
of `cs`: the scheme, then a non-empty greedy run of non-whitespace; returns
the matched text and the remainder after it. -/
def urlMatchAt (cs : List Char) : Option (List Char × List Char) :=
  match matchScheme cs with
  | none => none
  | some r1 =>
    let body := r1.takeWhile (fun c => ! pySpace c)
    let after := r1.dropWhile (fun c => ! pySpace c)
    if body.isEmpty then none
    else some (cs.take (cs.length - after.length), after)

/-- `URL_REGEX.findall`: scan left to right, taking non-overlapping matches
and advancing one character on failure.  The structural `fuel` is a
termination device only; `urlsFromF_congr` below shows any fuel at least the
input length (as used in `findallURLs`) gives the same result. -/
def urlsFromF : Nat → List Char → List (List Char)
  | 0, _ => []
  | _, [] => []
  | fuel + 1, c :: rest =>
    match urlMatchAt (c :: rest) with
    | some (m, after) => m :: urlsFromF fuel after
    | none => urlsFromF fuel rest

/-- `URL_REGEX.findall(text)`. -/
def findallURLs (cs : List Char) : List (List Char) :=
  urlsFromF cs.length cs

lemma matchSchemeTail_len (cs r : List Char) (h : matchSchemeTail cs = some r) :
    r.length + 3 = cs.length := by
  unfold matchSchemeTail at h
  split at h
  · cases h; rfl
  · cases h

lemma matchScheme_len (cs r : List Char) (h : matchScheme cs = some r) :
    r.length + 7 ≤ cs.length := by
  match cs with
  | [] => cases h
  | [c1] => cases h
  | [c1, c2] => cases h
  | [c1, c2, c3] => cases h
  | c1 :: c2 :: c3 :: c4 :: rest =>
    unfold matchScheme at h
    dsimp only at h
    by_cases hc : (c1.toLower == 'h' && c2.toLower == 't' && c3.toLower == 't' &&
        c4.toLower == 'p') = true
    · rw [if_pos hc] at h
      cases rest with
      | nil => dsimp only at h; cases h
      | cons c5 r2 =>
        dsimp only at h
        by_cases h5 : (c5.toLower == 's') = true
        · rw [if_pos h5] at h
          cases htl : matchSchemeTail r2 with
          | some r' =>
            rw [htl] at h
            dsimp only at h
            injection h with h'
            subst h'
            have hl := matchSchemeTail_len r2 r' htl
            simp only [List.length_cons]
            omega
          | none =>
            rw [htl] at h
            dsimp only at h
            have hl := matchSchemeTail_len _ _ h
            simp only [List.length_cons] at hl ⊢
            omega
        · rw [if_neg h5] at h
          have hl := matchSchemeTail_len _ _ h
          simp only [List.length_cons] at hl ⊢
          omega
    · rw [if_neg hc] at h
      cases h

lemma urlMatchAt_after_lt (cs m after : List Char)
    (h : urlMatchAt cs = some (m, after)) : after.length < cs.length := by
  unfold urlMatchAt at h
  cases hs : matchScheme cs with
  | none => rw [hs] at h; cases h
  | some r1 =>
    rw [hs] at h
    dsimp only at h
    split at h
    · cases h
    · have hr := matchScheme_len cs r1 hs
      have hdrop : (r1.dropWhile (fun c => ! pySpace c)).length ≤ r1.length :=
        (List.dropWhile_sublist _).length_le
      cases h
      omega

lemma urlsFromF_congr : ∀ (n : Nat) (cs : List Char), cs.length ≤ n →
    ∀ f1 f2, cs.length ≤ f1 → cs.length ≤ f2 →
    urlsFromF f1 cs = urlsFromF f2 cs := by
  intro n
  induction n with
  | zero =>
    intro cs h f1 f2 _ _
    have : cs = [] := List.eq_nil_of_length_eq_zero (by omega)
    subst this
    cases f1 <;> cases f2 <;> rfl
  | succ n ih =>
    intro cs hlen f1 f2 h1 h2
    cases cs with
    | nil => cases f1 <;> cases f2 <;> rfl
    | cons c rest =>
      have hlen1 : rest.length + 1 ≤ n + 1 := by simpa using hlen
      obtain ⟨g1, rfl⟩ : ∃ g, f1 = g + 1 := ⟨f1 - 1, by simp at h1; omega⟩
      obtain ⟨g2, rfl⟩ : ∃ g, f2 = g + 1 := ⟨f2 - 1, by simp at h2; omega⟩
      simp only [urlsFromF]
      cases hm : urlMatchAt (c :: rest) with
      | none =>
        dsimp only
        exact ih rest (by omega) g1 g2 (by simp at h1; omega) (by simp at h2; omega)
      | some p =>
        obtain ⟨m, after⟩ := p
        have hlt := urlMatchAt_after_lt _ _ _ hm
        simp only [List.length_cons] at hlt
        dsimp only
        rw [ih after (by omega) g1 g2 (by simp at h1; omega) (by simp at h2; omega)]

/-- `ALLOWED_DOMAINS` (bot.py lines 40-47). -/
def ALLOWED_DOMAINS : List String :=
  ["tiktok.com", "instagram.com", "x.com", "twitter.com", "youtu.be",
   "youtube.com"]

/-- `any(domain in url.lower() for domain in ALLOWED_DOMAINS)`: substring
test of each allowed domain against the lowercased URL. -/
def urlAllowed (u : List Char) : Bool :=
  ALLOWED_DOMAINS.any (fun d => subSearch d.data (u.map Char.toLower))

/-- `download_media` (bot.py lines 633-667) up to the point where background
processing is launched: strip the message text, find all URLs, silently
return when there is none (`none`); otherwise take only the first URL and
start processing it (`some url`) exactly when some allowed domain occurs in
its lowercasing, else silently return. -/
def download_media (text : String) : Option (List Char) :=
  match findallURLs (pyStrip text.data) with
  | [] => none
  | u :: _ => if urlAllowed u = true then some u else none

/-- C10: the handler looks only at the first URL found in the stripped
message text — when it starts processing, the processed URL is that first
match, and it starts processing iff one of the six allowed domain names
occurs as a case-insensitive substring anywhere in that URL (so a URL merely
embedding an allowed domain elsewhere in its text is admitted); with no URL,
or a first URL without an allowed domain, it returns silently. -/
theorem handler_first_url_admission (text : String) :
    ((findallURLs (pyStrip text.data) = [] → download_media text = none) ∧
     (∀ u rest, findallURLs (pyStrip text.data) = u :: rest →
       ((download_media text = some u) ↔
         ∃ d ∈ ALLOWED_DOMAINS, subSearch d.data (u.map Char.toLower) = true) ∧
       (∀ v, download_media text = some v → v = u))) := by
  constructor
  · intro h
    simp [download_media, h]
  · intro u rest h
    constructor
    · rw [show download_media text =
          (if urlAllowed u = true then some u else none) by rw [download_media, h]]
      constructor
      · intro hif
        by_cases ha : urlAllowed u = true
        · simpa [urlAllowed, List.any_eq_true] using ha
        · rw [if_neg ha] at hif; cases hif
      · intro hex
        have ha : urlAllowed u = true := by
          simpa [urlAllowed, List.any_eq_true] using hex
        rw [if_pos ha]
    · intro v hv
      rw [show download_media text =
          (if urlAllowed u = true then some u else none) by rw [download_media, h]] at hv
      by_cases ha : urlAllowed u = true
      · rw [if_pos ha] at hv; injection hv with h'; exact h'.symm
      · rw [if_neg ha] at hv; cases hv

/-- A message with two URLs; the first only embeds an allowed domain name in
its query string, the second genuinely is an allowed domain. -/
def txtC10 : String :=
  "look https://evil.example/?q=tiktok.com and https://youtube.com/watch"

theorem handler_first_url_admission_witness :
    download_media txtC10 = some "https://evil.example/?q=tiktok.com".data ∧
    findallURLs (pyStrip txtC10.data) =
      ["https://evil.example/?q=tiktok.com".data,
       "https://youtube.com/watch".data] := by
  have h := (handler_first_url_admission txtC10).2
    "https://evil.example/?q=tiktok.com".data
    ["https://youtube.com/watch".data]
    (by decide)
  exact ⟨h.1.mpr ⟨"tiktok.com", by decide, by decide⟩, by decide⟩
